import Mathlib

/-!
# The client abstraction of `cli/internal/hasura/client.go`

The source file consists of declarations only: interface types assembled by
embedding, a string-backed `SourceKind` with six constants, and two structs
whose JSON wire shape is fixed by their field tags.  The development below
embeds

* the interface declarations as data (embedded interface names and declared
  methods with their signatures) together with Go's method-set rule for
  embedding, where the method sets of the interfaces declared in other files
  of the package are a parameter;
* `SourceKind` and its constants;
* Go strings as byte sequences, with the UTF-8 decoding and encoding through
  which `encoding/json` turns them into JSON strings and back;
* `RequestBody` and `V1VersionResponse` together with the encoding and
  decoding that Go's `encoding/json` derives from their field tags.
-/

namespace Hasura

/-! ## Interface declarations -/

/-- Type expressions occurring in the method signatures of the file. -/
inductive GoType where
  | named (qualifiedName : String)
  | emptyInterface
  | slice (elem : GoType)
  | pointer (elem : GoType)
  deriving DecidableEq, Repr

/-- One method of an interface: its name, parameter types and result types
(parameter and result names are not part of a Go signature). -/
structure Method where
  name : String
  params : List GoType
  results : List GoType
  deriving DecidableEq, Repr

/-- One line of an interface body: an embedded interface or a declared method. -/
inductive Member where
  | embed (iface : String)
  | method (m : Method)
  deriving DecidableEq, Repr

/-- An interface type declaration. -/
structure InterfaceDecl where
  name : String
  members : List Member
  deriving DecidableEq, Repr

/-- Method `Send(requestBody interface{}) (httpcResponse *httpc.Response, body io.Reader, error error)` -/
def Send : Method :=
  { name := "Send"
    params := [.emptyInterface]
    results := [.pointer (.named "httpc.Response"), .named "io.Reader", .named "error"] }

/-- Method `Bulk([]RequestBody) (io.Reader, error)` -/
def Bulk : Method :=
  { name := "Bulk"
    params := [.slice (.named "RequestBody")]
    results := [.named "io.Reader", .named "error"] }

/-- Method `Set(key string, state interface{}) (io.Reader, error)` -/
def Set : Method :=
  { name := "Set"
    params := [.named "string", .emptyInterface]
    results := [.named "io.Reader", .named "error"] }

/-- Method `Get() (io.Reader, error)` -/
def Get : Method :=
  { name := "Get"
    params := []
    results := [.named "io.Reader", .named "error"] }

/-- Method `GetVersion() (*V1VersionResponse, error)` -/
def GetVersion : Method :=
  { name := "GetVersion"
    params := []
    results := [.pointer (.named "V1VersionResponse"), .named "error"] }

/-- Method `GetIntrospectionSchema() (IntrospectionSchema, error)` -/
def GetIntrospectionSchema : Method :=
  { name := "GetIntrospectionSchema"
    params := []
    results := [.named "IntrospectionSchema", .named "error"] }

/-- Declaration `type V1Query interface { ... }` -/
def V1Query : InterfaceDecl :=
  { name := "V1Query"
    members :=
      [ .embed "CommonMetadataOperations"
      , .embed "PGSourceOps"
      , .method Send
      , .method Bulk ] }

/-- Declaration `type V1Metadata interface { ... }` -/
def V1Metadata : InterfaceDecl :=
  { name := "V1Metadata"
    members :=
      [ .embed "CommonMetadataOperations"
      , .embed "V2CommonMetadataOperations"
      , .embed "CatalogStateOperations"
      , .method Send ] }

/-- Declaration `type CatalogStateOperations interface { ... }` -/
def CatalogStateOperations : InterfaceDecl :=
  { name := "CatalogStateOperations"
    members := [ .method Set, .method Get ] }

/-- Declaration `type V2Query interface { ... }` -/
def V2Query : InterfaceDecl :=
  { name := "V2Query"
    members :=
      [ .embed "PGSourceOps"
      , .embed "MSSQLSourceOps"
      , .embed "CitusSourceOps"
      , .embed "CockroachSourceOps"
      , .embed "BigQuerySourceOps"
      , .method Send
      , .method Bulk ] }

/-- Declaration `type V1Version interface { ... }` -/
def V1Version : InterfaceDecl :=
  { name := "V1Version"
    members := [ .method GetVersion ] }

/-- Declaration `type IntrospectionSchema interface{}`: the empty interface under a name. -/
def IntrospectionSchema : InterfaceDecl :=
  { name := "IntrospectionSchema"
    members := [] }

/-- Declaration `type V1Graphql interface { ... }` -/
def V1Graphql : InterfaceDecl :=
  { name := "V1Graphql"
    members := [ .method GetIntrospectionSchema ] }

/-- The interface types declared in the file, in source order. -/
def fileInterfaces : List InterfaceDecl :=
  [V1Query, V1Metadata, CatalogStateOperations, V2Query, V1Version, IntrospectionSchema,
    V1Graphql]

/-- The methods an interface declares itself. -/
def InterfaceDecl.declaredMethods (d : InterfaceDecl) : List Method :=
  d.members.filterMap fun
    | .method m => some m
    | .embed _ => none

/-- The interfaces an interface embeds. -/
def InterfaceDecl.embeds (d : InterfaceDecl) : List String :=
  d.members.filterMap fun
    | .embed n => some n
    | .method _ => none

/-- Method sets of the interfaces that are declared in other files of the
package (`CommonMetadataOperations`, `V2CommonMetadataOperations`,
`PGSourceOps`, `MSSQLSourceOps`, `CitusSourceOps`, `CockroachSourceOps`,
`BigQuerySourceOps`), by interface name. -/
abbrev ExternalMethodSets := String → List Method

/-- The method set contributed by an embedded interface name: an interface of
this file contributes its declared methods and what its own embeds contribute
from outside; any other name is looked up among the external method sets. -/
def resolveEmbed (ext : ExternalMethodSets) (n : String) : List Method :=
  match fileInterfaces.find? (fun d => d.name == n) with
  | some d => d.declaredMethods ++ d.embeds.flatMap ext
  | none => ext n

/-- Go's method set of an interface type: the methods of every embedded
interface together with the declared methods. -/
def InterfaceDecl.methodSet (ext : ExternalMethodSets) (d : InterfaceDecl) : List Method :=
  d.members.flatMap fun
    | .embed n => resolveEmbed ext n
    | .method m => [m]

/-- The fields of `type Client struct`: field name and type name. -/
def Client : List (String × String) :=
  [ ("V1Metadata", "V1Metadata")
  , ("V1Query", "V1Query")
  , ("V2Query", "V2Query")
  , ("PGDump", "PGDump")
  , ("V1Graphql", "V1Graphql")
  , ("V1Version", "V1Version") ]

/-- The sub-client types of `Client` whose interface declaration is in the
file and declares the method `m`, in field order. -/
def subClientsDeclaring (m : Method) : List String :=
  (Client.map Prod.snd).filter fun n =>
    fileInterfaces.any fun d => d.name == n && decide (m ∈ d.declaredMethods)

/-- The sub-client types of `Client` whose interface declaration is in the
file and declares some method with the given name, in field order. -/
def subClientsDeclaringName (methodName : String) : List String :=
  (Client.map Prod.snd).filter fun n =>
    fileInterfaces.any fun d => d.name == n && d.declaredMethods.any fun m => m.name == methodName

/-! ## `SourceKind` -/

/-- Declaration `type SourceKind string`: a defined type whose underlying type is `string`. -/
structure SourceKind where
  val : String
  deriving DecidableEq, Repr

def SourceKindPG : SourceKind := ⟨"postgres"⟩
def SourceKindMSSQL : SourceKind := ⟨"mssql"⟩
def SourceKindCitus : SourceKind := ⟨"citus"⟩
def SourceKindCockroach : SourceKind := ⟨"cockroach"⟩
def SourceKindBigQuery : SourceKind := ⟨"bigquery"⟩
def SourceKindSnowflake : SourceKind := ⟨"snowflake"⟩

/-- The `const ( ... )` block of `SourceKind`: identifier and value, in source order. -/
def sourceKindConsts : List (String × SourceKind) :=
  [ ("SourceKindPG", SourceKindPG)
  , ("SourceKindMSSQL", SourceKindMSSQL)
  , ("SourceKindCitus", SourceKindCitus)
  , ("SourceKindCockroach", SourceKindCockroach)
  , ("SourceKindBigQuery", SourceKindBigQuery)
  , ("SourceKindSnowflake", SourceKindSnowflake) ]

/-- The capability interface that goes with a `SourceKind` constant under the
naming scheme of the file: the constant `SourceKind` + `X` goes with the
interface `X` + `SourceOps` (`SourceKindPG` with `PGSourceOps`, and so on). -/
def sourceOpsInterface (constIdent : String) : String :=
  constIdent.drop "SourceKind".length ++ "SourceOps"

/-- The declared `SourceKind` constants whose capability interface is embedded
in the interface `d`, in source order. -/
def supportedSourceKinds (d : InterfaceDecl) : List (String × SourceKind) :=
  sourceKindConsts.filter fun c => decide (sourceOpsInterface c.1 ∈ d.embeds)

/-! ## Go strings and UTF-8

A Go `string` is a sequence of bytes that need not be valid UTF-8, while the
value of a JSON string is a sequence of Unicode characters.  `json.Marshal`
goes from the first to the second by decoding UTF-8 and writing U+FFFD for
every byte that starts no valid encoding; `json.Unmarshal` goes back by
encoding each character in UTF-8.  Masks, shifts and bitwise ors of the Go
code are written with `%`, `*`, `/` and `+`, with which they agree on the
ranges at hand. -/

/-- A Go `string`: a sequence of bytes. -/
abbrev GoString := List (Fin 256)

/-- Go's conversion `byte(x)`: the low eight bits. -/
def toByte (n : Nat) : Fin 256 :=
  ⟨n % 256, Nat.mod_lt _ (by decide)⟩

/-- Go's `utf8.RuneError`, U+FFFD. -/
def RuneError : Nat := 0xFFFD

/-- Go's `utf8` table `first` read together with `acceptRanges`, for a leading
byte from `0x80` on: the length of the sequence it starts and the range
accepted for the second byte, or none for a byte that starts no sequence. -/
def first (s0 : Nat) : Option (Nat × Nat × Nat) :=
  if 0xC2 ≤ s0 ∧ s0 ≤ 0xDF then some (2, 0x80, 0xBF)
  else if s0 = 0xE0 then some (3, 0xA0, 0xBF)
  else if 0xE1 ≤ s0 ∧ s0 ≤ 0xEC then some (3, 0x80, 0xBF)
  else if s0 = 0xED then some (3, 0x80, 0x9F)
  else if 0xEE ≤ s0 ∧ s0 ≤ 0xEF then some (3, 0x80, 0xBF)
  else if s0 = 0xF0 then some (4, 0x90, 0xBF)
  else if 0xF1 ≤ s0 ∧ s0 ≤ 0xF3 then some (4, 0x80, 0xBF)
  else if s0 = 0xF4 then some (4, 0x80, 0x8F)
  else none

/-- Go's `utf8.DecodeRuneInString`: the first rune of a byte sequence and the
number of bytes it takes; `(RuneError, 1)` when the sequence starts with no
valid encoding, `(RuneError, 0)` when it is empty. -/
def DecodeRune : List Nat → Nat × Nat
  | [] => (RuneError, 0)
  | s0 :: t =>
    if s0 < 0x80 then (s0, 1)
    else
      match first s0 with
      | none => (RuneError, 1)
      | some (sz, lo, hi) =>
        if t.length + 1 < sz then (RuneError, 1)
        else
          match t with
          | [] => (RuneError, 1)
          | s1 :: t1 =>
            if s1 < lo ∨ hi < s1 then (RuneError, 1)
            else if sz ≤ 2 then (s0 % 32 * 64 + s1 % 64, 2)
            else
              match t1 with
              | [] => (RuneError, 1)
              | s2 :: t2 =>
                if s2 < 0x80 ∨ 0xBF < s2 then (RuneError, 1)
                else if sz ≤ 3 then (s0 % 16 * 4096 + s1 % 64 * 64 + s2 % 64, 3)
                else
                  match t2 with
                  | [] => (RuneError, 1)
                  | s3 :: _ =>
                    if s3 < 0x80 ∨ 0xBF < s3 then (RuneError, 1)
                    else (s0 % 8 * 262144 + s1 % 64 * 4096 + s2 % 64 * 64 + s3 % 64, 4)

/-- The loop of the string encoder of `encoding/json`, on the characters it
writes: a byte below `0x80` stands for itself; otherwise the next rune is
decoded from at most four bytes, an invalid byte is written as U+FFFD and
skipped alone, a valid rune is written and its bytes skipped.  The first
argument bounds the number of steps. -/
def stringValueAux : Nat → List Nat → List Char
  | 0, _ => []
  | _ + 1, [] => []
  | fuel + 1, b :: rest =>
    if b < 0x80 then Char.ofNat b :: stringValueAux fuel rest
    else
      let r := DecodeRune ((b :: rest).take 4)
      if r.1 = RuneError ∧ r.2 = 1 then Char.ofNat RuneError :: stringValueAux fuel rest
      else Char.ofNat r.1 :: stringValueAux fuel (rest.drop (r.2 - 1))

/-- The characters written for a byte sequence; every step consumes a byte, so
as many steps as there are bytes reach the end. -/
def stringValue (s : List Nat) : List Char :=
  stringValueAux s.length s

/-- The value of the JSON string that `json.Marshal` writes for a Go string. -/
def jsonString (s : GoString) : String :=
  ⟨stringValue (s.map Fin.val)⟩

/-- Go's `utf8.AppendRune`: the UTF-8 encoding of a rune, a surrogate or a rune
beyond U+10FFFF being encoded as U+FFFD. -/
def EncodeRune (r : Nat) : List Nat :=
  if r ≤ 0x7F then [r % 256]
  else if r ≤ 0x7FF then [0xC0 + r / 64 % 256, 0x80 + r % 256 % 64]
  else
    let r3 := if 0x10FFFF < r ∨ (0xD800 ≤ r ∧ r ≤ 0xDFFF) then RuneError else r
    if r3 ≤ 0xFFFF then
      [0xE0 + r3 / 4096 % 256, 0x80 + r3 / 64 % 256 % 64, 0x80 + r3 % 256 % 64]
    else
      [0xF0 + r3 / 262144 % 256, 0x80 + r3 / 4096 % 256 % 64, 0x80 + r3 / 64 % 256 % 64,
        0x80 + r3 % 256 % 64]

/-- The Go string that holds a sequence of Unicode characters: its UTF-8
encoding.  The Go strings of this form are the valid UTF-8 ones. -/
def GoString.ofString (s : String) : GoString :=
  s.data.flatMap fun c => (EncodeRune c.toNat).map toByte

/-! ## JSON values and the encoding fixed by field tags -/

/-- JSON values; an object keeps its members in order.  Numbers are integers:
the only numeric field of the file is the unsigned `Version`. -/
inductive Json where
  | null
  | bool (b : Bool)
  | num (n : Int)
  | str (s : String)
  | arr (elems : List Json)
  | obj (members : List (String × Json))

/-- The keys of an object, in order (empty for any other value). -/
def Json.keys : Json → List String
  | .obj members => members.map Prod.fst
  | _ => []

/-- The last value stored under a key of an object, if any. -/
def Json.get? (key : String) : Json → Option Json
  | .obj members => members.reverse.lookup key
  | _ => none

/-- A value held in an `interface{}`, seen through what `json.Marshal` makes of
it: the nil interface, a value with a JSON encoding, or a value of a kind that
`json.Marshal` rejects (a channel, a function, ...). -/
inductive Dynamic where
  | nil
  | encodes (j : Json)
  | unsupported (err : String)

/-- A struct tag `json:"name"` or `json:"name,omitempty"`. -/
structure FieldTag where
  name : String
  omitempty : Bool

/-- The values of the field kinds that occur in the two structs of the file:
`string`, `uint`, `*string` and `interface{}`. -/
inductive FieldValue where
  | string (s : GoString)
  | uint (n : Nat)
  | stringPtr (p : Option GoString)
  | iface (v : Dynamic)

/-- The emptiness test of `encoding/json` behind `omitempty`: length zero for a
string, zero for a number, nil for a pointer or an interface. -/
def isEmptyValue : FieldValue → Bool
  | .string s => s.length == 0
  | .uint n => n == 0
  | .stringPtr p => p.isNone
  | .iface .nil => true
  | .iface _ => false

/-- The encoding of the value held in an `interface{}`; the nil interface
encodes as `null`. -/
def encodeDynamic : Dynamic → Except String Json
  | .nil => .ok .null
  | .encodes j => .ok j
  | .unsupported err => .error err

/-- The encoding of one field value; a string is written through the string
encoder, a nil pointer encodes as `null`. -/
def encodeValue : FieldValue → Except String Json
  | .string s => .ok (.str (jsonString s))
  | .uint n => .ok (.num n)
  | .stringPtr none => .ok .null
  | .stringPtr (some s) => .ok (.str (jsonString s))
  | .iface v => encodeDynamic v

/-- The members of the object `json.Marshal` writes for a struct: the fields in
declaration order under their tag names, a field tagged `omitempty` being
left out when its value is empty. -/
def marshalFields : List (FieldTag × FieldValue) → Except String (List (String × Json))
  | [] => .ok []
  | (tag, v) :: rest =>
    if tag.omitempty && isEmptyValue v then marshalFields rest
    else do
      let j ← encodeValue v
      let js ← marshalFields rest
      pure ((tag.name, j) :: js)

/-- Declaration `type RequestBody struct`; `Version` is a `uint`, `Args` an `interface{}`. -/
structure RequestBody where
  Type_ : GoString
  Version : Nat
  Args : Dynamic

/-- The tagged fields of a `RequestBody`:
`json:"type"`, `json:"version,omitempty"`, `json:"args"`. -/
def RequestBody.fields (r : RequestBody) : List (FieldTag × FieldValue) :=
  [ (⟨"type", false⟩, .string r.Type_)
  , (⟨"version", true⟩, .uint r.Version)
  , (⟨"args", false⟩, .iface r.Args) ]

/-- Go's `json.Marshal` of a `RequestBody`. -/
def marshalRequestBody (r : RequestBody) : Except String Json :=
  (marshalFields r.fields).map Json.obj

/-- Declaration `type V1VersionResponse struct`; `ServerType` is a `*string`, nil being `none`. -/
structure V1VersionResponse where
  Version : GoString
  ServerType : Option GoString
  deriving DecidableEq, Repr

/-- The tagged fields of a `V1VersionResponse`:
`json:"version,omitempty"`, `json:"server_type,omitempty"`. -/
def V1VersionResponse.fields (r : V1VersionResponse) : List (FieldTag × FieldValue) :=
  [ (⟨"version", true⟩, .string r.Version)
  , (⟨"server_type", true⟩, .stringPtr r.ServerType) ]

/-- Go's `json.Marshal` of a `V1VersionResponse`. -/
def marshalV1VersionResponse (r : V1VersionResponse) : Except String Json :=
  (marshalFields r.fields).map Json.obj

/-! ## The decoding fixed by field tags -/

/-- Case folding of one character of an object key, as far as it can reach the
ASCII names of the tags: ASCII lower case goes to upper case, and the two
non-ASCII characters whose Unicode simple fold is an ASCII letter, the Kelvin
sign (U+212A) and the long s (U+017F), go to `K` and `S`. -/
def foldRune (c : Char) : Char :=
  if 'a' ≤ c ∧ c ≤ 'z' then Char.ofNat (c.toNat - 32)
  else if c.toNat = 0x212A then 'K'
  else if c.toNat = 0x017F then 'S'
  else c

/-- The folded form of a name under which `json.Unmarshal` finds a field when
no tag name matches a key exactly. -/
def foldName (s : String) : String :=
  s.map foldRune

/-- The fields of `V1VersionResponse`. -/
inductive VersionField where
  | Version
  | ServerType
  deriving DecidableEq, Repr

/-- The tag names of `V1VersionResponse`, in declaration order. -/
def versionFieldNames : List (String × VersionField) :=
  [ ("version", .Version), ("server_type", .ServerType) ]

/-- The field an object key is stored into: the field whose tag name equals the
key, otherwise the first field whose tag name equals it up to case folding,
otherwise none (the member is skipped). -/
def findField (key : String) : Option VersionField :=
  match versionFieldNames.find? (fun f => f.1 == key) with
  | some f => some f.2
  | none => (versionFieldNames.find? (fun f => foldName f.1 == foldName key)).map Prod.snd

/-- The kind of a JSON value, as named in an `UnmarshalTypeError`. -/
def Json.kind : Json → String
  | .null => "null"
  | .bool _ => "bool"
  | .num _ => "number"
  | .str _ => "string"
  | .arr _ => "array"
  | .obj _ => "object"

/-- An `UnmarshalTypeError`: the kind of the JSON value and the Go type or
field it did not fit. -/
structure UnmarshalTypeError where
  value : String
  target : String
  deriving DecidableEq, Repr

/-- The decoder state: the struct being filled and the first type error saved. -/
structure DecodeState where
  out : V1VersionResponse
  savedError : Option UnmarshalTypeError
  deriving DecidableEq, Repr

/-- Keeps the first error only. -/
def DecodeState.saveError (st : DecodeState) (e : UnmarshalTypeError) : DecodeState :=
  match st.savedError with
  | none => { st with savedError := some e }
  | some _ => st

/-- Stores one member value into the field found for its key.  A string is
stored as the UTF-8 encoding of its characters; `null` leaves a `string` untouched and sets a pointer to nil; any
other value is a type error, before which a nil pointer has already been
pointed at a fresh empty string. -/
def storeField (st : DecodeState) (f : VersionField) (j : Json) : DecodeState :=
  match f, j with
  | .Version, .str s => { st with out := { st.out with Version := GoString.ofString s } }
  | .Version, .null => st
  | .Version, j => st.saveError ⟨j.kind, "V1VersionResponse.version"⟩
  | .ServerType, .str s =>
    { st with out := { st.out with ServerType := some (GoString.ofString s) } }
  | .ServerType, .null => { st with out := { st.out with ServerType := none } }
  | .ServerType, j =>
    DecodeState.saveError
      { st with out := { st.out with ServerType := some (st.out.ServerType.getD []) } }
      ⟨j.kind, "V1VersionResponse.server_type"⟩

/-- Decodes the members of an object in order; a later member overwrites an
earlier one, and a member whose key finds no field is skipped. -/
def decodeMembers (st : DecodeState) : List (String × Json) → DecodeState
  | [] => st
  | (key, j) :: rest =>
    match findField key with
    | some f => decodeMembers (storeField st f j) rest
    | none => decodeMembers st rest

/-- Go's `json.Unmarshal` of a JSON value into a `V1VersionResponse` variable holding
`init`: the variable afterwards and the error returned, if any. -/
def unmarshalV1VersionResponse (j : Json) (init : V1VersionResponse) :
    V1VersionResponse × Option UnmarshalTypeError :=
  match j with
  | .obj members =>
    let st := decodeMembers ⟨init, none⟩ members
    (st.out, st.savedError)
  | .null => (init, none)
  | j => (init, some ⟨j.kind, "V1VersionResponse"⟩)

/-- The zero value of `V1VersionResponse`. -/
def V1VersionResponse.zero : V1VersionResponse :=
  { Version := [], ServerType := none }

/-- Decoding a response body into a fresh `V1VersionResponse`. -/
def decodeV1VersionResponse (j : Json) : V1VersionResponse × Option UnmarshalTypeError :=
  unmarshalV1VersionResponse j V1VersionResponse.zero

/-! ## Composition of the client types -/

/-- C1: `V2Query` consists of exactly the five embedded source-kind interfaces
`PGSourceOps`, `MSSQLSourceOps`, `CitusSourceOps`, `CockroachSourceOps`,
`BigQuerySourceOps` and the two methods `Send` and `Bulk`: a member of the
declaration is one of these seven and each of the seven is a member, and,
whatever the method sets of the five embedded interfaces are, the method set
of `V2Query` is their union with `Send` and `Bulk`. -/
theorem V2Query_is_union_of_source_ops :
    (∀ x : Member, x ∈ V2Query.members ↔
      (x = .embed "PGSourceOps" ∨ x = .embed "MSSQLSourceOps" ∨ x = .embed "CitusSourceOps" ∨
        x = .embed "CockroachSourceOps" ∨ x = .embed "BigQuerySourceOps" ∨
        x = .method Send ∨ x = .method Bulk)) ∧
    V2Query.members.length = 7 ∧
    ∀ (ext : ExternalMethodSets) (m : Method),
      m ∈ V2Query.methodSet ext ↔
        (m ∈ ext "PGSourceOps" ∨ m ∈ ext "MSSQLSourceOps" ∨ m ∈ ext "CitusSourceOps" ∨
          m ∈ ext "CockroachSourceOps" ∨ m ∈ ext "BigQuerySourceOps" ∨
          m = Send ∨ m = Bulk) := by
  refine ⟨?_, rfl, ?_⟩
  · intro x
    simp [V2Query]
  · intro ext m
    simp [InterfaceDecl.methodSet, V2Query, resolveEmbed, fileInterfaces, V1Query, V1Metadata,
      CatalogStateOperations, V1Version, IntrospectionSchema, V1Graphql, List.find?]

/-- C2: `V1Query` consists of exactly the embedded `CommonMetadataOperations`
and `PGSourceOps` and the methods `Send` and `Bulk`; none of `MSSQLSourceOps`,
`CitusSourceOps`, `CockroachSourceOps`, `BigQuerySourceOps` is embedded in it,
and its method set is the union of the method sets of
`CommonMetadataOperations` and `PGSourceOps` with `Send` and `Bulk`, whatever
the method sets of the interfaces declared elsewhere are. -/
theorem V1Query_is_frozen_postgres_only :
    (∀ x : Member, x ∈ V1Query.members ↔
      (x = .embed "CommonMetadataOperations" ∨ x = .embed "PGSourceOps" ∨
        x = .method Send ∨ x = .method Bulk)) ∧
    V1Query.members.length = 4 ∧
    Member.embed "MSSQLSourceOps" ∉ V1Query.members ∧
    Member.embed "CitusSourceOps" ∉ V1Query.members ∧
    Member.embed "CockroachSourceOps" ∉ V1Query.members ∧
    Member.embed "BigQuerySourceOps" ∉ V1Query.members ∧
    ∀ (ext : ExternalMethodSets) (m : Method),
      m ∈ V1Query.methodSet ext ↔
        (m ∈ ext "CommonMetadataOperations" ∨ m ∈ ext "PGSourceOps" ∨
          m = Send ∨ m = Bulk) := by
  refine ⟨?_, rfl, by decide, by decide, by decide, by decide, ?_⟩
  · intro x
    simp [V1Query]
  · intro ext m
    simp [InterfaceDecl.methodSet, V1Query, resolveEmbed, fileInterfaces, V2Query, V1Metadata,
      CatalogStateOperations, V1Version, IntrospectionSchema, V1Graphql, List.find?]

/-- C3: `V1Metadata` consists of exactly the embedded
`CommonMetadataOperations`, `V2CommonMetadataOperations` and
`CatalogStateOperations` and the method `Send`; `CatalogStateOperations`
consists of exactly the two methods `Set(key string, state interface{})` and
`Get()`, and embeds nothing; the method set of `V1Metadata` is the union of
the method sets of the two metadata interfaces with `Set`, `Get` and `Send`. -/
theorem V1Metadata_composition :
    (∀ x : Member, x ∈ V1Metadata.members ↔
      (x = .embed "CommonMetadataOperations" ∨ x = .embed "V2CommonMetadataOperations" ∨
        x = .embed "CatalogStateOperations" ∨ x = .method Send)) ∧
    V1Metadata.members.length = 4 ∧
    CatalogStateOperations.members =
      [ .method ⟨"Set", [.named "string", .emptyInterface], [.named "io.Reader", .named "error"]⟩
      , .method ⟨"Get", [], [.named "io.Reader", .named "error"]⟩ ] ∧
    (∀ ext : ExternalMethodSets, CatalogStateOperations.methodSet ext = [Set, Get]) ∧
    ∀ (ext : ExternalMethodSets) (m : Method),
      m ∈ V1Metadata.methodSet ext ↔
        (m ∈ ext "CommonMetadataOperations" ∨ m ∈ ext "V2CommonMetadataOperations" ∨
          m = Set ∨ m = Get ∨ m = Send) := by
  refine ⟨?_, rfl, rfl, fun _ => rfl, ?_⟩
  · intro x
    simp [V1Metadata]
  · intro ext m
    simp [InterfaceDecl.methodSet, V1Metadata, resolveEmbed, fileInterfaces, V1Query, V2Query,
      CatalogStateOperations, V1Version, IntrospectionSchema, V1Graphql, List.find?, InterfaceDecl.declaredMethods,
      InterfaceDecl.embeds]

/-- C4: `Bulk` is declared by `V1Query` and by `V2Query` and by no other
sub-client type declared in the file: `V1Metadata`, `V1Version` and `V1Graphql`
declare no method named `Bulk` (and the method sets of `V1Version` and
`V1Graphql`, which embed nothing, hold none).  Where it is declared, `Bulk`
takes one `[]RequestBody` and returns `(io.Reader, error)`. -/
theorem Bulk_only_on_query_clients :
    Member.method Bulk ∈ V1Query.members ∧
    Member.method Bulk ∈ V2Query.members ∧
    subClientsDeclaringName "Bulk" = ["V1Query", "V2Query"] ∧
    V1Metadata.declaredMethods.map Method.name = ["Send"] ∧
    (∀ ext : ExternalMethodSets, (V1Version.methodSet ext).map Method.name = ["GetVersion"]) ∧
    (∀ ext : ExternalMethodSets,
      (V1Graphql.methodSet ext).map Method.name = ["GetIntrospectionSchema"]) ∧
    V1Query.declaredMethods.filter (fun m => m.name == "Bulk") = [Bulk] ∧
    V2Query.declaredMethods.filter (fun m => m.name == "Bulk") = [Bulk] ∧
    Bulk.params = [.slice (.named "RequestBody")] ∧
    Bulk.results = [.named "io.Reader", .named "error"] := by
  refine ⟨by decide, by decide, by decide, by decide, fun _ => rfl, fun _ => rfl,
    by decide, by decide, rfl, rfl⟩

/-! ## The string encoder -/

/-- One more step than there are bytes changes nothing. -/
theorem stringValueAux_succ (fuel : Nat) : ∀ s : List Nat, s.length ≤ fuel →
    stringValueAux (fuel + 1) s = stringValueAux fuel s := by
  induction fuel with
  | zero =>
    intro s hs
    have : s = [] := List.eq_nil_of_length_eq_zero (by omega)
    subst this
    simp [stringValueAux]
  | succ n ih =>
    intro s hs
    cases s with
    | nil => simp [stringValueAux]
    | cons b rest =>
      have hr : rest.length ≤ n := by simpa using hs
      have hd : ∀ k, (rest.drop k).length ≤ n := by
        intro k
        rw [List.length_drop]
        omega
      rw [stringValueAux, stringValueAux]
      simp only [ih rest hr, ih _ (hd _)]

/-- Any number of steps from the number of bytes on gives the same characters. -/
theorem stringValueAux_of_le (s : List Nat) : ∀ fuel, s.length ≤ fuel →
    stringValueAux fuel s = stringValue s := by
  intro fuel
  induction fuel with
  | zero =>
    intro hs
    have : s = [] := List.eq_nil_of_length_eq_zero (by omega)
    subst this
    rfl
  | succ n ih =>
    intro hs
    by_cases h : s.length ≤ n
    · rw [stringValueAux_succ n s h, ih h]
    · have : s.length = n + 1 := by omega
      rw [stringValue, this]

/-- The loop of the string encoder, unfolded once. -/
theorem stringValue_cons (b : Nat) (rest : List Nat) :
    stringValue (b :: rest) =
      if b < 0x80 then Char.ofNat b :: stringValue rest
      else
        if (DecodeRune ((b :: rest).take 4)).1 = RuneError ∧
            (DecodeRune ((b :: rest).take 4)).2 = 1 then
          Char.ofNat RuneError :: stringValue rest
        else
          Char.ofNat (DecodeRune ((b :: rest).take 4)).1 ::
            stringValue (rest.drop ((DecodeRune ((b :: rest).take 4)).2 - 1)) := by
  have hd : ∀ k, stringValueAux rest.length (rest.drop k) = stringValue (rest.drop k) := by
    intro k
    apply stringValueAux_of_le
    rw [List.length_drop]
    omega
  show stringValueAux (rest.length + 1) (b :: rest) = _
  rw [stringValueAux]
  simp only [hd]
  rfl

/-- The string written for a Go string is empty exactly when the Go string is. -/
theorem jsonString_eq_empty_iff (s : GoString) : jsonString s = "" ↔ s = [] := by
  constructor
  · intro h
    cases s with
    | nil => rfl
    | cons b rest =>
      exfalso
      have h2 : stringValue ((b :: rest).map Fin.val) = [] := congrArg String.data h
      rw [List.map_cons, stringValue_cons] at h2
      split_ifs at h2
  · intro h
    subst h
    rfl

/-- The leading byte of a three-byte encoding is classified as such, and the
second byte lies in the range it accepts. -/
theorem first_three (n : Nat) (h1 : 0x7FF < n) (h2 : n ≤ 0xFFFF)
    (hv : n < 0xD800 ∨ 0xDFFF < n) :
    ∃ lo hi, first (0xE0 + n / 4096) = some (3, lo, hi) ∧
      ¬ (0x80 + n / 64 % 64 < lo ∨ hi < 0x80 + n / 64 % 64) := by
  by_cases a1 : n / 4096 = 0
  · exact ⟨0xA0, 0xBF, by simp [first, a1], by omega⟩
  · by_cases a2 : n / 4096 ≤ 12
    · refine ⟨0x80, 0xBF, ?_, by omega⟩
      simp only [first]
      rw [if_neg (by omega), if_neg (by omega), if_pos (by omega)]
    · by_cases a3 : n / 4096 = 13
      · exact ⟨0x80, 0x9F, by simp [first, a3], by omega⟩
      · refine ⟨0x80, 0xBF, ?_, by omega⟩
        simp only [first]
        rw [if_neg (by omega), if_neg (by omega), if_neg (by omega), if_neg (by omega),
          if_pos (by omega)]

/-- The leading byte of a four-byte encoding is classified as such, and the
second byte lies in the range it accepts. -/
theorem first_four (n : Nat) (h1 : 0xFFFF < n) (h2 : n < 0x110000) :
    ∃ lo hi, first (0xF0 + n / 262144) = some (4, lo, hi) ∧
      ¬ (0x80 + n / 4096 % 64 < lo ∨ hi < 0x80 + n / 4096 % 64) := by
  by_cases a1 : n / 262144 = 0
  · exact ⟨0x90, 0xBF, by simp [first, a1], by omega⟩
  · by_cases a2 : n / 262144 ≤ 3
    · refine ⟨0x80, 0xBF, ?_, by omega⟩
      simp only [first]
      rw [if_neg (by omega), if_neg (by omega), if_neg (by omega), if_neg (by omega),
        if_neg (by omega), if_neg (by omega), if_pos (by omega)]
    · have a3 : n / 262144 = 4 := by omega
      exact ⟨0x80, 0x8F, by simp [first, a3], by omega⟩

/-- The encoder reads the UTF-8 encoding of a character back as the character. -/
theorem stringValue_EncodeRune (c : Char) (rest : List Nat) :
    stringValue (EncodeRune c.toNat ++ rest) = c :: stringValue rest := by
  have hvalid : c.toNat < 0xD800 ∨ (0xDFFF < c.toNat ∧ c.toNat < 0x110000) := c.valid
  have hc : Char.ofNat c.toNat = c := Char.ofNat_toNat c
  generalize c.toNat = n at hvalid hc
  by_cases h1 : n ≤ 0x7F
  · have e : EncodeRune n = [n] := by
      simp only [EncodeRune, h1, if_true, List.cons.injEq, and_true]
      omega
    rw [e, List.singleton_append, stringValue_cons, if_pos (by omega), hc]
  · by_cases h2 : n ≤ 0x7FF
    · have e : EncodeRune n = [0xC0 + n / 64, 0x80 + n % 64] := by
        simp only [EncodeRune, h1, h2, if_true, if_false, List.cons.injEq, and_true]
        refine ⟨?_, ?_⟩ <;> omega
      have hf : first (0xC0 + n / 64) = some (2, 0x80, 0xBF) := by
        simp only [first]
        rw [if_pos (by omega)]
      have hd : DecodeRune ((0xC0 + n / 64) :: (0x80 + n % 64) :: rest.take 2) = (n, 2) := by
        simp only [DecodeRune, hf]
        rw [if_neg (by omega), if_neg (by simp), if_neg (by omega), if_pos (by omega)]
        congr 1
        omega
      rw [e]
      simp only [List.cons_append, List.nil_append]
      rw [stringValue_cons, if_neg (by omega)]
      simp only [List.take_succ_cons, hd]
      rw [if_neg (by omega)]
      simp [hc]
    · have hns : ¬ (0x10FFFF < n ∨ (0xD800 ≤ n ∧ n ≤ 0xDFFF)) := by omega
      by_cases h3 : n ≤ 0xFFFF
      · have e : EncodeRune n = [0xE0 + n / 4096, 0x80 + n / 64 % 64, 0x80 + n % 64] := by
          simp only [EncodeRune, h1, h2, h3, hns, if_true, if_false, List.cons.injEq, and_true]
          refine ⟨?_, ?_, ?_⟩ <;> omega
        obtain ⟨lo, hi, hf, hr⟩ := first_three n (by omega) h3 (by omega)
        have hd : DecodeRune ((0xE0 + n / 4096) :: (0x80 + n / 64 % 64) :: (0x80 + n % 64) ::
            rest.take 1) = (n, 3) := by
          simp only [DecodeRune, hf]
          rw [if_neg (by omega), if_neg (by simp), if_neg hr, if_neg (by omega),
            if_neg (by omega), if_pos (by omega)]
          congr 1
          omega
        rw [e]
        simp only [List.cons_append, List.nil_append]
        rw [stringValue_cons, if_neg (by omega)]
        simp only [List.take_succ_cons, hd]
        rw [if_neg (by omega)]
        simp [hc]
      · have e : EncodeRune n = [0xF0 + n / 262144, 0x80 + n / 4096 % 64, 0x80 + n / 64 % 64,
            0x80 + n % 64] := by
          simp only [EncodeRune, h1, h2, h3, hns, if_true, if_false, List.cons.injEq, and_true]
          refine ⟨?_, ?_, ?_, ?_⟩ <;> omega
        obtain ⟨lo, hi, hf, hr⟩ := first_four n (by omega) (by omega)
        have hd : DecodeRune ((0xF0 + n / 262144) :: (0x80 + n / 4096 % 64) ::
            (0x80 + n / 64 % 64) :: (0x80 + n % 64) :: rest.take 0) = (n, 4) := by
          simp only [DecodeRune, hf]
          rw [if_neg (by omega), if_neg (by simp), if_neg hr, if_neg (by omega),
            if_neg (by omega), if_neg (by omega), if_neg (by omega)]
          congr 1
          omega
        rw [e]
        simp only [List.cons_append, List.nil_append]
        rw [stringValue_cons, if_neg (by omega)]
        simp only [List.take_succ_cons, hd]
        rw [if_neg (by omega)]
        simp [hc]

/-- Every element of an encoding is a byte. -/
theorem EncodeRune_lt (n : Nat) : ∀ b ∈ EncodeRune n, b < 256 := by
  intro b hb
  simp only [EncodeRune, RuneError] at hb
  split_ifs at hb <;> simp at hb <;> omega

/-- The encoder reads the UTF-8 encoding of a sequence of characters back as
the sequence. -/
theorem stringValue_encode (cs : List Char) :
    stringValue (cs.flatMap fun c => EncodeRune c.toNat) = cs := by
  induction cs with
  | nil => rfl
  | cons c cs ih =>
    rw [List.flatMap_cons, stringValue_EncodeRune, ih]

/-- A valid UTF-8 Go string, the encoding of the characters `s`, is written as
the JSON string `s`: nothing is replaced. -/
theorem jsonString_ofString (s : String) : jsonString (GoString.ofString s) = s := by
  have h : (GoString.ofString s).map Fin.val = s.data.flatMap fun c => EncodeRune c.toNat := by
    simp only [GoString.ofString, List.map_flatMap, List.map_map]
    congr 1
    funext c
    calc List.map (Fin.val ∘ toByte) (EncodeRune c.toNat)
        = List.map id (EncodeRune c.toNat) :=
          List.map_congr_left fun b hb => Nat.mod_eq_of_lt (EncodeRune_lt _ b hb)
      _ = EncodeRune c.toNat := List.map_id _
  simp only [jsonString, h, stringValue_encode]

/-! ## Wire shape of `RequestBody` -/

/-- The object written for a `RequestBody` whose `Args` encode as `a`. -/
theorem marshalRequestBody_eq (r : RequestBody) (a : Json)
    (h : encodeDynamic r.Args = .ok a) :
    marshalRequestBody r = .ok (.obj
      (if r.Version = 0 then [("type", .str (jsonString r.Type_)), ("args", a)]
       else [("type", .str (jsonString r.Type_)), ("version", .num r.Version), ("args", a)])) := by
  by_cases hv : r.Version = 0
  · simp [marshalRequestBody, RequestBody.fields, marshalFields, isEmptyValue, encodeValue, h, hv,
      bind, Except.bind, pure, Except.pure, Except.map]
  · simp [marshalRequestBody, RequestBody.fields, marshalFields, isEmptyValue, encodeValue, h, hv,
      bind, Except.bind, pure, Except.pure, Except.map]

/-- The keys and values of the object written for a `RequestBody`. -/
theorem requestBody_object_members (t : String) (v : Nat) (a : Json) :
    (Json.obj (if v = 0 then [("type", .str t), ("args", a)]
      else [("type", .str t), ("version", .num v), ("args", a)])).keys =
        (if v = 0 then ["type", "args"] else ["type", "version", "args"]) ∧
    (Json.obj (if v = 0 then [("type", .str t), ("args", a)]
      else [("type", .str t), ("version", .num v), ("args", a)])).get? "type" =
        some (.str t) ∧
    (Json.obj (if v = 0 then [("type", .str t), ("args", a)]
      else [("type", .str t), ("version", .num v), ("args", a)])).get? "version" =
        (if v = 0 then none else some (.num v)) ∧
    (Json.obj (if v = 0 then [("type", .str t), ("args", a)]
      else [("type", .str t), ("version", .num v), ("args", a)])).get? "args" = some a := by
  by_cases hv : v = 0
  · exact ⟨by simp [hv, Json.keys], by simp [hv, Json.get?, List.lookup],
      by simp [hv, Json.get?, List.lookup], by simp [hv, Json.get?, List.lookup]⟩
  · exact ⟨by simp [hv, Json.keys], by simp [hv, Json.get?, List.lookup],
      by simp [hv, Json.get?, List.lookup], by simp [hv, Json.get?, List.lookup]⟩

/-- C5, as stated, fails twice.  A `RequestBody` whose `Args` hold a value that
`json.Marshal` rejects has no serialization: marshalling returns the error.
And the `RequestBody` whose `Type` is the single byte `0xFF` is written with
`"type"` holding U+FFFD, whose UTF-8 bytes `EF BF BD` are not the `Type`
string. -/
theorem RequestBody_wire_shape_fails :
    marshalRequestBody
        ⟨GoString.ofString "run_sql", 0, .unsupported "json: unsupported type: chan int"⟩ =
      .error "json: unsupported type: chan int" ∧
    marshalRequestBody ⟨[0xFF], 0, .nil⟩ =
      .ok (.obj [("type", .str "\uFFFD"), ("args", .null)]) ∧
    GoString.ofString "\uFFFD" = [0xEF, 0xBF, 0xBD] ∧
    GoString.ofString "\uFFFD" ≠ [0xFF] := by
  refine ⟨rfl, ?_, by decide, by decide⟩
  rw [marshalRequestBody_eq ⟨[0xFF], 0, .nil⟩ .null rfl]
  have h : jsonString [0xFF] = "\uFFFD" := by decide
  simp [h]

/-- C5, amended: for every `RequestBody` whose `Args` have a JSON encoding `a`
(which is `null` for nil `Args`), the serialization is an object whose keys
are exactly `type`, `args` when `Version` is zero and exactly `type`,
`version`, `args` otherwise; `type` holds the `Type` string as the string
encoder writes it, which is the `Type` string itself whenever that is valid
UTF-8; `version` holds the `Version` number and `args` is present in both
cases. -/
theorem RequestBody_wire_shape (r : RequestBody) (a : Json)
    (h : encodeDynamic r.Args = .ok a) :
    ∃ j : Json, marshalRequestBody r = .ok j ∧
      j.keys = (if r.Version = 0 then ["type", "args"] else ["type", "version", "args"]) ∧
      j.get? "type" = some (.str (jsonString r.Type_)) ∧
      (∀ t : String, r.Type_ = GoString.ofString t → j.get? "type" = some (.str t)) ∧
      j.get? "version" = (if r.Version = 0 then none else some (.num r.Version)) ∧
      j.get? "args" = some a ∧
      encodeDynamic .nil = .ok .null := by
  obtain ⟨hk, ht, hv, ha⟩ := requestBody_object_members (jsonString r.Type_) r.Version a
  refine ⟨_, marshalRequestBody_eq r a h, hk, ht, ?_, hv, ha, rfl⟩
  intro t htype
  rw [ht, htype, jsonString_ofString]

/-- C5, amended, at the request `{Type: "run_sql", Version: 0, Args: nil}`: the
keys are `type` and `args`, with `type` holding `run_sql` and `args` holding
`null`. -/
theorem RequestBody_wire_shape_witness :
    encodeDynamic (RequestBody.mk (GoString.ofString "run_sql") 0 .nil).Args = .ok .null ∧
    ∃ j : Json, marshalRequestBody ⟨GoString.ofString "run_sql", 0, .nil⟩ = .ok j ∧
      j.keys = ["type", "args"] ∧
      j.get? "type" = some (.str (jsonString (GoString.ofString "run_sql"))) ∧
      (∀ t : String, GoString.ofString "run_sql" = GoString.ofString t →
        j.get? "type" = some (.str t)) ∧
      j.get? "version" = none ∧
      j.get? "args" = some .null ∧
      encodeDynamic .nil = .ok .null :=
  ⟨rfl, RequestBody_wire_shape ⟨GoString.ofString "run_sql", 0, .nil⟩ .null rfl⟩

/-- C9, as stated, fails: `RequestBody{Type: "", Version: 0, Args: nil}` is a
`RequestBody` whose type is the empty string, and its serialization carries
`"type": ""`; and a `RequestBody` whose `Args` hold a value that `json.Marshal`
rejects has no serialized envelope at all. -/
theorem RequestBody_type_may_be_empty :
    (RequestBody.mk [] 0 .nil).Type_ = [] ∧
    marshalRequestBody ⟨[], 0, .nil⟩ = .ok (.obj [("type", .str ""), ("args", .null)]) ∧
    marshalRequestBody
        ⟨GoString.ofString "bulk", 0, .unsupported "json: unsupported type: func()"⟩ =
      .error "json: unsupported type: func()" := by
  refine ⟨rfl, ?_, rfl⟩
  rw [marshalRequestBody_eq ⟨[], 0, .nil⟩ .null rfl]
  have h : jsonString [] = "" := by decide
  simp [h]

/-- C9, amended: the serialized envelope of every `RequestBody` with encodable
`Args` carries the key `type`, holding the `Type` string as the string encoder
writes it (the `Type` string itself whenever that is valid UTF-8); the `type`
on the wire is empty exactly when `Type` is empty; the struct itself admits
every byte string as `Type`. -/
theorem RequestBody_type_always_present (r : RequestBody) (a : Json)
    (h : encodeDynamic r.Args = .ok a) :
    ∃ j : Json, marshalRequestBody r = .ok j ∧
      "type" ∈ j.keys ∧
      j.get? "type" = some (.str (jsonString r.Type_)) ∧
      (j.get? "type" = some (.str "") ↔ r.Type_ = []) ∧
      (∀ t : String, r.Type_ = GoString.ofString t → j.get? "type" = some (.str t)) ∧
      ∀ t : GoString, ∃ r0 : RequestBody, r0.Type_ = t := by
  obtain ⟨hk, ht, -, -⟩ := requestBody_object_members (jsonString r.Type_) r.Version a
  refine ⟨_, marshalRequestBody_eq r a h, ?_, ht, ?_, ?_, fun t => ⟨⟨t, 0, .nil⟩, rfl⟩⟩
  · rw [hk]
    by_cases hv : r.Version = 0 <;> simp [hv]
  · rw [ht, ← jsonString_eq_empty_iff]
    constructor
    · intro he
      injection he with he
      injection he
    · intro he
      rw [he]
  · intro t htype
    rw [ht, htype, jsonString_ofString]

/-- C9, amended, at the request `{Type: "bulk", Version: 0, Args: nil}`. -/
theorem RequestBody_type_always_present_witness :
    encodeDynamic (RequestBody.mk (GoString.ofString "bulk") 0 .nil).Args = .ok .null ∧
    ∃ j : Json, marshalRequestBody ⟨GoString.ofString "bulk", 0, .nil⟩ = .ok j ∧
      "type" ∈ j.keys ∧
      j.get? "type" = some (.str (jsonString (GoString.ofString "bulk"))) ∧
      (j.get? "type" = some (.str "") ↔ GoString.ofString "bulk" = []) ∧
      (∀ t : String, GoString.ofString "bulk" = GoString.ofString t →
        j.get? "type" = some (.str t)) ∧
      ∀ t : GoString, ∃ r0 : RequestBody, r0.Type_ = t :=
  ⟨rfl, RequestBody_type_always_present ⟨GoString.ofString "bulk", 0, .nil⟩ .null rfl⟩

/-! ## Wire shape of `V1VersionResponse` -/

/-- C6: for every string `v`, decoding the object `{"version": v}` into a fresh
`V1VersionResponse` returns no error and leaves `Version` holding `v` (in
UTF-8, as every Go string read from JSON) with `ServerType` nil; when the
object also has `"server_type": s` (before or after `version`), decoding
returns no error and leaves `ServerType` pointing at `s`.  The first part
holds in particular for `{"version":"2.3.0"}`, where `Version` is the five
bytes of `2.3.0`. -/
theorem decode_version_response :
    (∀ v : String,
      decodeV1VersionResponse (.obj [("version", .str v)]) =
        ({ Version := GoString.ofString v, ServerType := none }, none)) ∧
    (∀ v s : String,
      decodeV1VersionResponse (.obj [("version", .str v), ("server_type", .str s)]) =
        ({ Version := GoString.ofString v, ServerType := some (GoString.ofString s) }, none)) ∧
    (∀ v s : String,
      decodeV1VersionResponse (.obj [("server_type", .str s), ("version", .str v)]) =
        ({ Version := GoString.ofString v, ServerType := some (GoString.ofString s) }, none)) ∧
    decodeV1VersionResponse (.obj [("version", .str "2.3.0")]) =
      ({ Version := GoString.ofString "2.3.0", ServerType := none }, none) ∧
    GoString.ofString "2.3.0" = [0x32, 0x2E, 0x33, 0x2E, 0x30] ∧
    ∀ v : String, jsonString (GoString.ofString v) = v := by
  have hv : findField "version" = some .Version := by decide
  have hs : findField "server_type" = some .ServerType := by decide
  refine ⟨?_, ?_, ?_, ?_, by decide, jsonString_ofString⟩
  · intro v
    simp [decodeV1VersionResponse, unmarshalV1VersionResponse, decodeMembers, hv, storeField,
      V1VersionResponse.zero]
  · intro v s
    simp [decodeV1VersionResponse, unmarshalV1VersionResponse, decodeMembers, hv, hs, storeField,
      V1VersionResponse.zero]
  · intro v s
    simp [decodeV1VersionResponse, unmarshalV1VersionResponse, decodeMembers, hv, hs, storeField,
      V1VersionResponse.zero]
  · simp [decodeV1VersionResponse, unmarshalV1VersionResponse, decodeMembers, hv, storeField,
      V1VersionResponse.zero]

/-- The object written for a `V1VersionResponse`. -/
theorem marshalV1VersionResponse_eq (r : V1VersionResponse) :
    marshalV1VersionResponse r = .ok (.obj
      ((if r.Version = [] then [] else [("version", .str (jsonString r.Version))]) ++
        (match r.ServerType with
          | none => []
          | some s => [("server_type", .str (jsonString s))]))) := by
  obtain ⟨v, st⟩ := r
  by_cases hv : v = [] <;> cases st <;>
    simp [marshalV1VersionResponse, V1VersionResponse.fields, marshalFields, isEmptyValue,
      encodeValue, hv, bind, Except.bind, pure, Except.pure, Except.map]

/-- C7, as stated, fails twice.  The `V1VersionResponse` with the empty version
string and no server type is written as the empty object, without the key
`version`.  And the one whose version is the single byte `0xFF` is written
with `"version"` holding U+FFFD, whose UTF-8 bytes are not the version
string. -/
theorem version_key_omitted_when_empty :
    marshalV1VersionResponse { Version := [], ServerType := none } = .ok (.obj []) ∧
    "version" ∉ (Json.obj []).keys ∧
    marshalV1VersionResponse { Version := [0xFF], ServerType := none } =
      .ok (.obj [("version", .str "\uFFFD")]) ∧
    GoString.ofString "\uFFFD" ≠ [0xFF] := by
  refine ⟨rfl, by simp [Json.keys], ?_, by decide⟩
  rw [marshalV1VersionResponse_eq]
  have h : jsonString [0xFF] = "\uFFFD" := by decide
  simp [h]

/-- C7, amended: the serialization of every `V1VersionResponse` is an object
with no keys other than `version` and `server_type`, in this order; `version`
is present exactly when the version string is non-empty, `server_type` exactly
when the server type is present, so it is never `null`; each holds its string
as the string encoder writes it, which is the string itself whenever that is
valid UTF-8. -/
theorem V1VersionResponse_wire_shape (r : V1VersionResponse) :
    ∃ j : Json, marshalV1VersionResponse r = .ok j ∧
      j.keys = (if r.Version = [] then [] else ["version"]) ++
        (if r.ServerType.isSome then ["server_type"] else []) ∧
      ("version" ∈ j.keys ↔ r.Version ≠ []) ∧
      j.get? "version" =
        (if r.Version = [] then none else some (.str (jsonString r.Version))) ∧
      ("server_type" ∈ j.keys ↔ r.ServerType.isSome) ∧
      j.get? "server_type" = r.ServerType.map (fun s => Json.str (jsonString s)) ∧
      (∀ v : String, r.Version = GoString.ofString v → r.Version ≠ [] →
        j.get? "version" = some (.str v)) ∧
      (∀ s : String, r.ServerType = some (GoString.ofString s) →
        j.get? "server_type" = some (.str s)) := by
  refine ⟨_, marshalV1VersionResponse_eq r, ?_⟩
  obtain ⟨v, st⟩ := r
  have key : ∀ fs : List (String × Json),
      fs = ((if v = [] then [] else [("version", .str (jsonString v))]) ++
        (match st with
          | none => []
          | some s => [("server_type", .str (jsonString s))])) →
      (Json.obj fs).keys = (if v = [] then [] else ["version"]) ++
        (if st.isSome then ["server_type"] else []) ∧
      ("version" ∈ (Json.obj fs).keys ↔ v ≠ []) ∧
      (Json.obj fs).get? "version" = (if v = [] then none else some (.str (jsonString v))) ∧
      ("server_type" ∈ (Json.obj fs).keys ↔ st.isSome) ∧
      (Json.obj fs).get? "server_type" = st.map (fun s => Json.str (jsonString s)) := by
    intro fs hfs
    subst hfs
    by_cases hv : v = [] <;> cases st <;> simp [hv, Json.keys, Json.get?, List.lookup]
  obtain ⟨h1, h2, h3, h4, h5⟩ := key _ rfl
  refine ⟨h1, h2, h3, h4, h5, ?_, ?_⟩
  · intro t ht hne
    rw [h3, if_neg hne]
    show some (Json.str (jsonString v)) = _
    have hv : v = GoString.ofString t := ht
    rw [hv, jsonString_ofString]
  · intro s hs
    rw [h5]
    have hst : st = some (GoString.ofString s) := hs
    rw [hst]
    show some (Json.str (jsonString (GoString.ofString s))) = _
    rw [jsonString_ofString]

/-- C7, amended, at the response `{Version: "2.3.0", ServerType: nil}`: the
only key is `version`. -/
theorem V1VersionResponse_wire_shape_witness :
    ∃ j : Json,
      marshalV1VersionResponse { Version := GoString.ofString "2.3.0", ServerType := none } =
        .ok j ∧
      j.keys = ["version"] ∧
      j.get? "version" = some (.str "2.3.0") ∧
      j.get? "server_type" = none := by
  obtain ⟨j, hj, hk, -, -, -, hs, hv, -⟩ :=
    V1VersionResponse_wire_shape { Version := GoString.ofString "2.3.0", ServerType := none }
  have hne : GoString.ofString "2.3.0" ≠ [] := by decide
  exact ⟨j, hj, by simpa [hne] using hk, hv "2.3.0" rfl hne, by simpa using hs⟩

/-! ## Source kinds -/

/-- C8, as stated, fails: `SourceKindSnowflake` is a declared `SourceKind`
constant, and `V2Query` embeds no capability interface for it, so not every
declared constant has its capability interface in `V2Query`. -/
theorem V2Query_has_no_snowflake_ops :
    ("SourceKindSnowflake", SourceKindSnowflake) ∈ sourceKindConsts ∧
    sourceOpsInterface "SourceKindSnowflake" = "SnowflakeSourceOps" ∧
    sourceOpsInterface "SourceKindSnowflake" ∉ V2Query.embeds ∧
    ¬ (∀ c ∈ sourceKindConsts, sourceOpsInterface c.1 ∈ V2Query.embeds) := by
  refine ⟨by decide, by decide, by decide, by decide⟩

/-- C8, amended: of the six declared `SourceKind` constants, `V2Query` embeds
the capability interface of exactly five, postgres, mssql, citus, cockroach
and bigquery (these five interfaces being all that `V2Query` embeds), and none
for snowflake; `V1Query` embeds the capability interface of postgres only. -/
theorem query_clients_supported_source_kinds :
    supportedSourceKinds V2Query =
      [ ("SourceKindPG", SourceKindPG), ("SourceKindMSSQL", SourceKindMSSQL),
        ("SourceKindCitus", SourceKindCitus), ("SourceKindCockroach", SourceKindCockroach),
        ("SourceKindBigQuery", SourceKindBigQuery) ] ∧
    V2Query.embeds =
      (supportedSourceKinds V2Query).map (fun c => sourceOpsInterface c.1) ∧
    ("SourceKindSnowflake", SourceKindSnowflake) ∉ supportedSourceKinds V2Query ∧
    supportedSourceKinds V1Query = [("SourceKindPG", SourceKindPG)] := by
  refine ⟨by decide, by decide, by decide, by decide⟩

/-- C10, as stated, fails: the zero value of `SourceKind`, the empty string, is
a value of the type and is none of the six declared constants. -/
theorem SourceKind_zero_value_not_declared :
    SourceKind.mk "" ∉ sourceKindConsts.map Prod.snd := by
  decide

/-- C10, amended: `SourceKind` has exactly six declared constants, whose wire
strings are `postgres`, `mssql`, `citus`, `cockroach`, `bigquery` and
`snowflake`, pairwise distinct; the type itself is a string type, so every
string is the value of some `SourceKind`. -/
theorem SourceKind_six_distinct_constants :
    sourceKindConsts.map (fun c => c.2.val) =
      ["postgres", "mssql", "citus", "cockroach", "bigquery", "snowflake"] ∧
    sourceKindConsts.length = 6 ∧
    (sourceKindConsts.map Prod.snd).Nodup ∧
    (sourceKindConsts.map Prod.fst).Nodup ∧
    ∀ s : String, ∃ k : SourceKind, k.val = s := by
  refine ⟨by decide, by decide, by decide, by decide, fun s => ⟨⟨s⟩, rfl⟩⟩

end Hasura
